import Mathlib

/-!
Shallow embedding of the core of the `sanitizationjs` repository
(`src/core/sanitization-rules.ts`, `src/core/normalization-engine.ts`:
the `SanitizationEngine` and the `NormalizationEngine`), together with
proofs settling the specification claims about it.

Conventions of the embedding:
* JSON-like runtime values are modelled by the inductive `Json`;
  JavaScript's `undefined` is the constructor `Json.undefinedV`.
* JavaScript strings are Lean `String`s; the regular expressions of the
  built-in rules are implemented as executable character-list matchers
  with the exact semantics of the source patterns.
* Machine numbers that the code only ever treats as integers
  (pagination fields, timestamps) are modelled as `Int`; the one real
  division, `Math.ceil(total / limit)`, is modelled by `ceilDivJs`,
  which agrees with the ceiling of the rational quotient whenever the
  divisor is positive.
* Fallible code (the `throw` in `sanitize`, `validateConfig`, and the
  error-formatting path) returns `Except String _`.
* Scanning loops over strings are written with an explicit fuel
  argument so that they are structurally recursive; each step of every
  scanner consumes at least one character, so fuel equal to the length
  of the scanned list is always sufficient and the fuel-exhaustion
  branch is unreachable.
-/

/-! ### JavaScript string primitives -/

/-- The character set of JavaScript `\s` (also the set removed by
`String.prototype.trim`): tab, LF, VT, FF, CR, space, NBSP, Ogham space,
the U+2000–U+200A range, LS, PS, NNBSP, MMSP, ideographic space, BOM. -/
def jsWs (c : Char) : Bool :=
  c = ' ' || c = '\t' || c = '\n' || c = '\r' || c = Char.ofNat 11 || c = Char.ofNat 12 ||
  c = Char.ofNat 0xA0 || c = Char.ofNat 0x1680 ||
  (0x2000 ≤ c.toNat && c.toNat ≤ 0x200A) || c = Char.ofNat 0x2028 || c = Char.ofNat 0x2029 ||
  c = Char.ofNat 0x202F || c = Char.ofNat 0x205F || c = Char.ofNat 0x3000 || c = Char.ofNat 0xFEFF

/-- Remove trailing characters satisfying `jsWs`. -/
def dropTrailingWs : List Char → List Char
  | [] => []
  | c :: cs =>
    match dropTrailingWs cs with
    | [] => if jsWs c then [] else [c]
    | y :: ys => c :: y :: ys

/-- JavaScript `String.prototype.trim`. -/
def jsTrim (s : String) : String := ⟨dropTrailingWs (s.data.dropWhile jsWs)⟩

/-- JavaScript `String.prototype.toLowerCase` (ASCII-adequate). -/
def jsToLowerStr (s : String) : String := ⟨s.data.map Char.toLower⟩

/-- JavaScript `\w`: ASCII letters, digits and underscore. -/
def isWordChar (c : Char) : Bool := c.isAlpha || c.isDigit || c = '_'

/-- Lexicographic comparison of characters by code point, the order
`Array.prototype.sort` uses on (BMP) strings. -/
def charsLe : List Char → List Char → Bool
  | [], _ => true
  | _ :: _, [] => false
  | a :: as, b :: bs =>
    if a.toNat < b.toNat then true
    else if b.toNat < a.toNat then false
    else charsLe as bs

/-- Default `Array.prototype.sort` string comparison. -/
def jsStrLe (a b : String) : Bool := charsLe a.data b.data

/-- Insert a string into a `jsStrLe`-sorted list (stable). -/
def insertSorted (s : String) : List String → List String
  | [] => [s]
  | t :: ts => if jsStrLe s t then s :: t :: ts else t :: insertSorted s ts

/-- Stable sort by `jsStrLe`; models the in-place `rules.sort()` result. -/
def sortStrings : List String → List String
  | [] => []
  | s :: ss => insertSorted s (sortStrings ss)

/-- Case-sensitive literal match at the head: returns the remainder. -/
def stripLit : List Char → List Char → Option (List Char)
  | [], s => some s
  | _ :: _, [] => none
  | p :: ps, c :: cs => if c = p then stripLit ps cs else none

/-- Case-insensitive literal match at the head (for `/i` patterns). -/
def stripLitCI : List Char → List Char → Option (List Char)
  | [], s => some s
  | _ :: _, [] => none
  | p :: ps, c :: cs => if c.toLower = p.toLower then stripLitCI ps cs else none

/-- Does `n` occur (case-sensitively) as a contiguous run inside `hay`? -/
def containsSub (n : List Char) : List Char → Bool
  | [] => n.isEmpty
  | c :: cs => (stripLit n (c :: cs)).isSome || containsSub n cs

/-- First alternative of `pats` that matches at the head, case-insensitively;
models a regex alternation of literals. -/
def tryAltsCI (pats : List (List Char)) (s : List Char) : Option (List Char)
  := match pats with
  | [] => none
  | p :: ps =>
    match stripLitCI p s with
    | some r => some r
    | none => tryAltsCI ps s

/-- Generic global-replace-by-empty scanner: at each position, if `matchAt`
matches, drop the match and continue after it, else keep the character.
Fuel is consumed once per position, so the list length is enough fuel. -/
def scanStripGo (matchAt : List Char → Option (List Char)) : Nat → List Char → List Char
  | 0, s => s
  | _ + 1, [] => []
  | f + 1, c :: cs =>
    match matchAt (c :: cs) with
    | some rest => scanStripGo matchAt f rest
    | none => c :: scanStripGo matchAt f cs

/-- Generic `RegExp.prototype.test` scanner: does `matchAt` succeed at any
position? -/
def scanTestGo (matchAt : List Char → Option (List Char)) : Nat → List Char → Bool
  | 0, _ => false
  | _ + 1, [] => false
  | f + 1, c :: cs => (matchAt (c :: cs)).isSome || scanTestGo matchAt f cs

/-! ### The built-in rule patterns (`sanitization-rules.ts`) -/

/-- Match of `/<[^>]*>/` at the head: a `<` with some later `>`; the tag body
is everything up to the first `>`. -/
def htmlMatchAt : List Char → Option (List Char)
  | [] => none
  | c :: cs =>
    if c = '<' then
      match cs.dropWhile (fun x => !(x = '>')) with
      | _ :: rest => some rest
      | [] => none
    else none

/-- `/<[^>]*>/.test(value)`. -/
def htmlTest (s : String) : Bool := scanTestGo htmlMatchAt s.data.length s.data

/-- `value.replace(/<[^>]*>/g, '')`. -/
def htmlStrip (s : String) : String := ⟨scanStripGo htmlMatchAt s.data.length s.data⟩

/-- Scan for the terminating `</script>` of the script pattern: the body may
contain any characters, but every `<` that is not the start of `</script>`
is consumed as part of the body (this is exactly what
`[^<]*(?:(?!<\/script>)<[^<]*)*` allows). Returns the remainder after the
first `</script>`. -/
def scriptCloseGo : Nat → List Char → Option (List Char)
  | 0, _ => none
  | _ + 1, [] => none
  | f + 1, c :: cs =>
    match stripLitCI "</script>".data (c :: cs) with
    | some rest => some rest
    | none => scriptCloseGo f cs

/-- Match of `/<script\b[^<]*(?:(?!<\/script>)<[^<]*)*<\/script>/i` at the
head: `<script`, then a word boundary, then the body scan. -/
def scriptMatchAt (s : List Char) : Option (List Char) :=
  match stripLitCI "<script".data s with
  | none => none
  | some rest =>
    match rest with
    | [] => none
    | c :: cs => if isWordChar c then none else scriptCloseGo (c :: cs).length (c :: cs)

/-- The script rule's `test`. -/
def scriptTest (s : String) : Bool := scanTestGo scriptMatchAt s.data.length s.data

/-- The script rule's global replace-with-empty. -/
def scriptStrip (s : String) : String := ⟨scanStripGo scriptMatchAt s.data.length s.data⟩

/-- The SQL keywords of `/(\b(ALTER|CREATE|DELETE|DROP|EXEC(UTE)?|INSERT|SELECT|UNION|UPDATE)\b)/gi`.
`EXEC(UTE)?` contributes both `EXEC` and `EXECUTE` (each still requires the
trailing word boundary). -/
def sqlKeywords : List (List Char) :=
  ["ALTER", "CREATE", "DELETE", "DROP", "EXEC", "EXECUTE", "INSERT", "SELECT",
   "UNION", "UPDATE"].map String.data

/-- Does keyword `kw` match at the head of `s`, given whether the previous
character was a word character (for the leading `\b`)? The trailing `\b`
requires the next character to be a non-word character or the end. -/
def matchKeywordAt (prevIsWord : Bool) (kw : List Char) (s : List Char) : Bool :=
  !prevIsWord &&
    (match stripLitCI kw s with
     | some rest =>
       match rest with
       | [] => true
       | c :: _ => !isWordChar c
     | none => false)

/-- Scan for a SQL keyword occurrence with word boundaries on both sides. -/
def sqlTestGo : Nat → Bool → List Char → Bool
  | 0, _, _ => false
  | _ + 1, _, [] => false
  | f + 1, prevW, c :: cs =>
    sqlKeywords.any (fun kw => matchKeywordAt prevW kw (c :: cs)) ||
      sqlTestGo f (isWordChar c) cs

/-- The sql rule's `test`. -/
def sqlTest (s : String) : Bool := sqlTestGo s.data.length false s.data

/-- Alternatives of `/(javascript:|vbscript:|onload|onerror|onclick|onmouseover)/gi`. -/
def xssPats : List (List Char) :=
  ["javascript:", "vbscript:", "onload", "onerror", "onclick", "onmouseover"].map String.data

/-- The xss rule's `test`. -/
def xssTest (s : String) : Bool := scanTestGo (tryAltsCI xssPats) s.data.length s.data

/-- The xss rule's global replace-with-empty. -/
def xssStrip (s : String) : String := ⟨scanStripGo (tryAltsCI xssPats) s.data.length s.data⟩

/-- Whole-string match of `/^[^\s@]+@[^\s@]+\.[^\s@]+$/`: no whitespace
anywhere, a non-empty local part before the unique `@`, and after the `@`
a `.` that has at least one character on each side. -/
def emailShape (s : String) : Bool :=
  let cs := s.data
  cs.all (fun c => !jsWs c) &&
    (let a := cs.takeWhile (fun c => !(c = '@'))
     match cs.dropWhile (fun c => !(c = '@')) with
     | '@' :: rest =>
       !a.isEmpty && !rest.contains '@' &&
         (List.range rest.length).any
           (fun i => rest.getD i ' ' = '.' && decide (0 < i) && decide (i + 1 < rest.length))
     | _ => false)

/-- The email rule's transform: `value.toLowerCase().trim()`. -/
def emailTransform (s : String) : String := jsTrim (jsToLowerStr s)

/-- `value.replace(/[\s\-\(\)]/g, '')`. -/
def phoneStrip (s : String) : String :=
  ⟨s.data.filter (fun c => !(jsWs c || c = '-' || c = '(' || c = ')'))⟩

/-- `/^\+?[\d]+$/.test(s)`. -/
def plusDigits (s : String) : Bool :=
  match s.data with
  | '+' :: rest => !rest.isEmpty && rest.all Char.isDigit
  | l => !l.isEmpty && l.all Char.isDigit

/-- The phone rule's validate: shape check on the formatting-stripped value. -/
def phoneValidate (s : String) : Bool := plusDigits (phoneStrip s)

/-- `[-a-zA-Z0-9@:%._\+~#=]`, the host-part class of the URL pattern. -/
def isUrlA (c : Char) : Bool :=
  c = '-' || c.isAlpha || c.isDigit ||
    c = '@' || c = ':' || c = '%' || c = '.' || c = '_' || c = '+' || c = '~' || c = '#' || c = '='

/-- `[a-zA-Z0-9()]`, the TLD class of the URL pattern. -/
def isUrlB (c : Char) : Bool := c.isAlpha || c.isDigit || c = '(' || c = ')'

/-- `[-a-zA-Z0-9()@:%_\+.~#?&//=]`, the path class of the URL pattern. -/
def isUrlC (c : Char) : Bool :=
  c = '-' || c.isAlpha || c.isDigit || c = '(' || c = ')' ||
    c = '@' || c = ':' || c = '%' || c = '_' || c = '+' || c = '.' || c = '~' ||
    c = '#' || c = '?' || c = '&' || c = '/' || c = '='

/-- Existence of a decomposition `A{1,256} "." B{1,6} \b C*` of `t`
(the part of the URL pattern after scheme and optional `www.`).
The word boundary compares the word-character status of the last `B`
character with that of the first `C` character (end of string counts as
non-word). -/
def urlBody (t : List Char) : Bool :=
  (List.range (min 256 t.length + 1)).any fun i =>
    decide (1 ≤ i) && decide (i < t.length) && (t.take i).all isUrlA && t.getD i ' ' = '.' &&
      (let t1 := t.drop (i + 1)
       (List.range 7).any fun j =>
         decide (1 ≤ j) && decide (j ≤ t1.length) && (t1.take j).all isUrlB &&
           (let lastB := t1.getD (j - 1) ' '
            let c := t1.drop j
            (match c with
             | [] => isWordChar lastB
             | ch :: _ => !(isWordChar lastB = isWordChar ch)) && c.all isUrlC))

/-- Whole-string match of the URL pattern
`/^https?:\/\/(www\.)?[-a-zA-Z0-9@:%._\+~#=]{1,256}\.[a-zA-Z0-9()]{1,6}\b([-a-zA-Z0-9()@:%_\+.~#?&//=]*)$/`.
The `(www\.)?` group is genuinely nondeterministic (the host class also
contains `w` and `.`), so both readings are tried. -/
def urlValidate (s : String) : Bool :=
  match stripLit "http".data s.data with
  | none => false
  | some r0 =>
    let r1 := match r0 with
      | 's' :: rest => rest
      | _ => r0
    match stripLit "://".data r1 with
    | none => false
    | some r2 =>
      urlBody r2 ||
        (match stripLit "www.".data r2 with
         | some r3 => urlBody r3
         | none => false)

/-- Alternatives of `/(\.\.[\/\\]|\.\.%2f|\.\.%5c)/gi`. -/
def pathTraversalPats : List (List Char) :=
  ["../", "..\\", "..%2f", "..%5c"].map String.data

/-- The path-traversal rule's `test`. -/
def pathTraversalTest (s : String) : Bool :=
  scanTestGo (tryAltsCI pathTraversalPats) s.data.length s.data

/-- The character class `[;&|`$(){}[\]]` of the command-injection rule
(backtick and braces written by code point). -/
def cmdChars : List Char :=
  [';', '&', '|', Char.ofNat 96, '$', '(', ')', Char.ofNat 123, Char.ofNat 125, '[', ']']

/-- Single-character match against `cmdChars`. -/
def cmdMatchAt : List Char → Option (List Char)
  | [] => none
  | c :: cs => if cmdChars.contains c then some cs else none

/-- The command-injection rule's `test`. -/
def cmdTest (s : String) : Bool := scanTestGo cmdMatchAt s.data.length s.data

/-- The command-injection rule's global replace-with-empty. -/
def cmdStrip (s : String) : String := ⟨scanStripGo cmdMatchAt s.data.length s.data⟩

example : jsTrim "  Hello World  " = "Hello World" := by rfl
example : emailShape "  JOHN@EXAMPLE.COM  " = false := by rfl
example : emailShape "john@example.com" = true := by rfl
example : scriptTest "<script>" = false := by rfl
example : scriptTest "<script>alert(1)</script>" = true := by rfl
example : scriptStrip "a<script>x</script>b" = "ab" := by rfl
example : htmlStrip "<div>Safe content</div>" = "Safe content" := by rfl
example : xssStrip "jjavascript:avascript:" = "javascript:" := by rfl
example : sqlTest "DROP TABLE users" = true := by rfl
example : sqlTest "dropped" = false := by rfl
example : urlValidate "https://www.example.com/path" = true := by rfl
example : urlValidate "notaurl" = false := by rfl
example : phoneValidate "+1 (555) 123-4567" = true := by rfl
example : pathTraversalTest "..%2Fetc" = true := by rfl
example : cmdStrip "a;b|c" = "abc" := by rfl
example : sortStrings ["trim", "email-normalize"] = ["email-normalize", "trim"] := by rfl
example : sortStrings ["email-normalize", "trim"] = ["email-normalize", "trim"] := by rfl

/-! ### JSON-like runtime values -/

/-- Arbitrary JavaScript values as traversed by the engines.
`undefinedV` is JavaScript's `undefined`; `obj` keeps insertion order. -/
inductive Json where
  | null
  | undefinedV
  | bool (b : Bool)
  | num (n : Int)
  | str (s : String)
  | arr (elems : List Json)
  | obj (fields : List (String × Json))

/-- JavaScript truthiness of a `Json` value (`NaN` not modelled; objects and
arrays are always truthy). -/
def truthy : Json → Bool
  | .null => false
  | .undefinedV => false
  | .bool b => b
  | .num n => !(n = 0)
  | .str s => !(s = "")
  | .arr _ => true
  | .obj _ => true

/-- Property access `v?.k`: the named field of an object, `undefined`
otherwise (including on `null`/`undefined`, primitives and arrays). -/
def getField (v : Json) (k : String) : Json :=
  match v with
  | .obj kvs =>
    match kvs.lookup k with
    | some x => x
    | none => .undefinedV
  | _ => .undefinedV

/-! ### Sanitization data model (`types.ts`, `sanitization-rules.ts`) -/

/-- `SecurityViolationType` (string enum). -/
inductive SecurityViolationType where
  | XSS
  | SQL_INJECTION
  | HTML_INJECTION
  | SCRIPT_INJECTION
  | PATH_TRAVERSAL
  | COMMAND_INJECTION
deriving DecidableEq

/-- The enum's string value. -/
def violationTypeStr : SecurityViolationType → String
  | .XSS => "XSS"
  | .SQL_INJECTION => "SQL_INJECTION"
  | .HTML_INJECTION => "HTML_INJECTION"
  | .SCRIPT_INJECTION => "SCRIPT_INJECTION"
  | .PATH_TRAVERSAL => "PATH_TRAVERSAL"
  | .COMMAND_INJECTION => "COMMAND_INJECTION"

/-- Severity union type `'low' | 'medium' | 'high' | 'critical'`. -/
inductive Severity where
  | low
  | medium
  | high
  | critical
deriving DecidableEq

/-- `getSecurityViolationType`: fixed rule-name → type table, defaulting
to `XSS` for unmapped names. -/
def getSecurityViolationType (ruleName : String) : SecurityViolationType :=
  match [("html", SecurityViolationType.HTML_INJECTION),
         ("script", SecurityViolationType.SCRIPT_INJECTION),
         ("xss", SecurityViolationType.XSS),
         ("sql", SecurityViolationType.SQL_INJECTION),
         ("path-traversal", SecurityViolationType.PATH_TRAVERSAL),
         ("command-injection", SecurityViolationType.COMMAND_INJECTION)].lookup ruleName with
  | some t => t
  | none => .XSS

/-- `getViolationSeverity`: fixed type → severity table; the `|| 'medium'`
default of the source is kept although the table is total. -/
def getViolationSeverity (violationType : SecurityViolationType) : Severity :=
  match [(SecurityViolationType.XSS, Severity.high),
         (SecurityViolationType.SQL_INJECTION, Severity.critical),
         (SecurityViolationType.HTML_INJECTION, Severity.medium),
         (SecurityViolationType.SCRIPT_INJECTION, Severity.critical),
         (SecurityViolationType.PATH_TRAVERSAL, Severity.high),
         (SecurityViolationType.COMMAND_INJECTION, Severity.critical)].lookup violationType with
  | some s => s
  | none => .medium

/-- `SanitizationRule`: the `pattern` field is omitted (the engine only ever
calls `transform` and `validate`). -/
structure SanitizationRule where
  name : String
  transform : Option (String → String)
  validate : Option (String → Bool)
  description : String

/-- `SanitizationConfig`. -/
structure SanitizationConfig where
  enabled : Bool
  rules : List String
  customRules : List SanitizationRule
  strictMode : Bool
  logViolations : Bool
  rejectOnViolation : Option Bool

/-- Truthiness of the optional `rejectOnViolation` flag. -/
def jsOptTrue (o : Option Bool) : Bool :=
  match o with
  | some b => b
  | none => false

/-- `SecurityViolation` (internal record pushed during traversal). -/
structure SecurityViolation where
  type : SecurityViolationType
  field : String
  originalValue : String
  sanitizedValue : String
  rule : String
  severity : Severity

/-- `SanitizationResult`. -/
structure SanitizationResult where
  sanitized : Json
  violations : List String
  appliedRules : List String

/-- `DEFAULT_SANITIZATION_RULES`, in `Object.values` (insertion) order. -/
def DEFAULT_SANITIZATION_RULES : List SanitizationRule :=
  [{ name := "html", transform := some htmlStrip, validate := some (fun v => !htmlTest v),
     description := "Removes HTML tags from input" },
   { name := "script", transform := some scriptStrip, validate := some (fun v => !scriptTest v),
     description := "Removes script tags to prevent XSS" },
   { name := "sql", transform := none, validate := some (fun v => !sqlTest v),
     description := "Detects potential SQL injection patterns" },
   { name := "xss", transform := some xssStrip, validate := some (fun v => !xssTest v),
     description := "Removes common XSS attack vectors" },
   { name := "trim", transform := some jsTrim, validate := some (fun _ => true),
     description := "Removes leading and trailing whitespace" },
   { name := "email-normalize", transform := some emailTransform, validate := some emailShape,
     description := "Normalizes email addresses to lowercase" },
   { name := "phone-normalize", transform := some phoneStrip, validate := some phoneValidate,
     description := "Normalizes phone numbers by removing formatting" },
   { name := "url-validate", transform := none, validate := some urlValidate,
     description := "Validates URL format" },
   { name := "path-traversal", transform := none, validate := some (fun v => !pathTraversalTest v),
     description := "Detects path traversal attempts" },
   { name := "command-injection", transform := some cmdStrip, validate := some (fun v => !cmdTest v),
     description := "Removes command injection characters" }]

/-! ### The sanitization engine (`sanitization-engine.ts`) -/

/-- `Map.set` semantics on the name-keyed rule map: overwrite in place,
otherwise append. -/
def insertRule (m : List SanitizationRule) (r : SanitizationRule) : List SanitizationRule :=
  if m.any (fun x => x.name = r.name) then
    m.map (fun x => if x.name = r.name then r else x)
  else m ++ [r]

/-- `initializeRules`: default rules, then custom rules (later wins). -/
def initializeRules (customRules : List SanitizationRule) : List SanitizationRule :=
  (DEFAULT_SANITIZATION_RULES ++ customRules).foldl insertRule []

/-- The engine instance: the populated rule map, the configuration, and the
external DOMPurify primitive (`purify.sanitize` with all tags/attributes
stripped), which the embedding keeps abstract as a `String → String` field. -/
structure SanitizationEngine where
  rulesCache : List SanitizationRule
  config : SanitizationConfig
  purify : String → String

/-- Engine construction. -/
def mkEngine (config : SanitizationConfig) (purify : String → String) : SanitizationEngine :=
  { rulesCache := initializeRules config.customRules, config, purify }

/-- `this.rulesCache.get(name)`. -/
def lookupRule (e : SanitizationEngine) (name : String) : Option SanitizationRule :=
  e.rulesCache.find? (fun r => r.name = name)

/-- The compiled rule list of a `sanitize` call: the source first sorts the
caller's array in place (`rules.sort()`, building the cache key) and then
maps the — now sorted — array through the rule map, dropping unknown
names. The memoization cache is semantically transparent and not modelled. -/
def compileRules (e : SanitizationEngine) (rules : List String) : List SanitizationRule :=
  (sortStrings rules).filterMap (lookupRule e)

/-- `sanitizeString`: the per-rule loop over one string leaf. For each rule
in order: a failing `validate` on the current value records a violation;
a `transform` is applied and recorded in `appliedRules` when it changed the
value; after the `html` rule, a remaining `<` triggers the external
DOMPurify pass. -/
def sanitizeString (purify : String → String) (fieldPath : String) :
    List SanitizationRule → String → String × List SecurityViolation × List String
  | [], s => (s, [], [])
  | rule :: rest, s =>
    let originalValue := s
    let viol : List SecurityViolation :=
      match rule.validate with
      | some v =>
        if v s then []
        else
          [{ type := getSecurityViolationType rule.name, field := fieldPath,
             originalValue := originalValue, sanitizedValue := s, rule := rule.name,
             severity := getViolationSeverity (getSecurityViolationType rule.name) }]
      | none => []
    let s1 := match rule.transform with
      | some t => t s
      | none => s
    let applied : List String := if !(s1 = originalValue) then [rule.name] else []
    let s2 := if rule.name = "html" && s1.data.contains '<' then purify s1 else s1
    let r := sanitizeString purify fieldPath rest s2
    (r.1, viol ++ r.2.1, applied ++ r.2.2)

mutual

/-- `sanitizeValue`: depth-first traversal. `null`/`undefined` and non-string
primitives pass through; strings go through the rule loop; arrays index
their path with `[i]`; objects extend the dotted path. -/
def sanitizeValue (purify : String → String) (rules : List SanitizationRule) :
    Json → String → Json × List SecurityViolation × List String
  | .null, _ => (.null, [], [])
  | .undefinedV, _ => (.undefinedV, [], [])
  | .bool b, _ => (.bool b, [], [])
  | .num n, _ => (.num n, [], [])
  | .str s, fieldPath =>
    let r := sanitizeString purify fieldPath rules s
    (.str r.1, r.2.1, r.2.2)
  | .arr xs, fieldPath =>
    let r := sanitizeArr purify rules fieldPath 0 xs
    (.arr r.1, r.2.1, r.2.2)
  | .obj fs, fieldPath =>
    let r := sanitizeObj purify rules fieldPath fs
    (.obj r.1, r.2.1, r.2.2)

/-- Elementwise traversal of an array, accumulating violations and applied
rules in element order. -/
def sanitizeArr (purify : String → String) (rules : List SanitizationRule)
    (fieldPath : String) (idx : Nat) :
    List Json → List Json × List SecurityViolation × List String
  | [] => ([], [], [])
  | x :: xs =>
    let rx := sanitizeValue purify rules x (fieldPath ++ "[" ++ toString idx ++ "]")
    let rs := sanitizeArr purify rules fieldPath (idx + 1) xs
    (rx.1 :: rs.1, rx.2.1 ++ rs.2.1, rx.2.2 ++ rs.2.2)

/-- Fieldwise traversal of an object (insertion order preserved). -/
def sanitizeObj (purify : String → String) (rules : List SanitizationRule)
    (fieldPath : String) :
    List (String × Json) → List (String × Json) × List SecurityViolation × List String
  | [] => ([], [], [])
  | (k, v) :: fs =>
    let newFieldPath := if fieldPath = "" then k else fieldPath ++ "." ++ k
    let rv := sanitizeValue purify rules v newFieldPath
    let rs := sanitizeObj purify rules fieldPath fs
    ((k, rv.1) :: rs.1, rv.2.1 ++ rs.2.1, rv.2.2 ++ rs.2.2)

end

/-- Assembly of the `sanitize` result from the traversal of the compiled
rules: the strict-mode rejection, then the reduction of the internal
violation records to `"field: type"` strings. (`logViolations` only drives
a `console.warn` and has no modelled effect.) -/
def sanitizeResultOf (e : SanitizationEngine) (data : Json)
    (compiledRules : List SanitizationRule) : Except String SanitizationResult :=
  let r := sanitizeValue e.purify compiledRules data ""
  if e.config.strictMode && !r.2.1.isEmpty && jsOptTrue e.config.rejectOnViolation then
    .error ("Sanitization violations detected: " ++
      String.intercalate ", " (r.2.1.map (fun v => violationTypeStr v.type)))
  else
    .ok { sanitized := r.1,
          violations := r.2.1.map (fun v => v.field ++ ": " ++ violationTypeStr v.type),
          appliedRules := r.2.2 }

/-- `sanitize(data, rules)`; the default argument of the source is
`this.config.rules`. -/
def sanitize (e : SanitizationEngine) (data : Json) (rules : List String) :
    Except String SanitizationResult :=
  sanitizeResultOf e data (compileRules e rules)

/-- A `sanitize` call together with the content of the caller's `rules`
array after the call (the source's `rules.sort()` sorts that array in
place, so it comes back sorted). -/
def sanitizeCall (e : SanitizationEngine) (data : Json) (rules : List String) :
    Except String SanitizationResult × List String :=
  (sanitize e data rules, sortStrings rules)

/-- `validateConfig`: throws listing every configured rule name missing from
the rule map, returns `true` otherwise. -/
def validateConfig (e : SanitizationEngine) (config : SanitizationConfig) :
    Except String Bool :=
  let availableRules := e.rulesCache.map (fun r => r.name)
  let invalidRules := config.rules.filter (fun rule => !availableRules.contains rule)
  if !invalidRules.isEmpty then
    .error ("Invalid sanitization rules: " ++ String.intercalate ", " invalidRules)
  else
    .ok true

/-- A baseline configuration used for concrete runs (matches the defaults of
the repository's test setup; the flags are irrelevant to the evaluated
claims unless stated). -/
def baseCfg : SanitizationConfig :=
  { enabled := true, rules := ["html", "script", "xss", "trim"], customRules := [],
    strictMode := false, logViolations := false, rejectOnViolation := some false }

/-- A default engine with the identity as external DOMPurify stand-in. -/
def baseEngine : SanitizationEngine := mkEngine baseCfg id

example :
    sanitize baseEngine (.str "  Hello World  ") ["trim"] =
      .ok { sanitized := .str "Hello World", violations := [], appliedRules := ["trim"] } := by
  rfl

example :
    sanitize baseEngine (.str "  JOHN@EXAMPLE.COM  ") ["email-normalize", "trim"] =
      .ok { sanitized := .str "john@example.com", violations := [": XSS"],
            appliedRules := ["email-normalize"] } := by
  rfl

example :
    sanitize baseEngine (.str "  JOHN@EXAMPLE.COM  ") ["trim", "email-normalize"] =
      .ok { sanitized := .str "john@example.com", violations := [": XSS"],
            appliedRules := ["email-normalize"] } := by
  rfl

example :
    sanitize baseEngine (.obj [("a", .obj [("b", .arr [.str "<i>x</i>"])])]) ["html"] =
      .ok { sanitized := .obj [("a", .obj [("b", .arr [.str "x"])])],
            violations := ["a.b[0]: HTML_INJECTION"], appliedRules := ["html"] } := by
  rfl

/-! ### Normalization data model (`types.ts`) -/

/-- `format` / `errorFormat` variants. -/
inductive RespFormat where
  | minimal
  | standard
  | detailed
deriving DecidableEq

/-- `NormalizationConfig`. -/
structure NormalizationConfig where
  enabled : Bool
  format : RespFormat
  includeMetadata : Bool
  errorFormat : RespFormat
  includeDebugInfo : Option Bool
  compressResponses : Option Bool
  includeLinks : Option Bool

/-- `RequestContext` (the `timestamp : Date` field is not consumed by the
engine and is modelled as its epoch value). -/
structure RequestContext where
  requestId : String
  timestamp : Int
  startTime : Int
  userAgent : Option String
  ip : Option String

/-- Ambient runtime values the engine reads: `Date.now()`,
`new Date().toISOString()`, `process.env.NODE_ENV` and `process.version`. -/
structure RuntimeEnv where
  nowMs : Int
  isoNow : String
  nodeEnv : Option String
  nodeVersion : String

/-- `ResponseMetadata`. -/
structure ResponseMetadata where
  timestamp : String
  requestId : String
  version : String
  processingTime : Option Int
  server : Option String
  nodeVersion : Option String
deriving DecidableEq

/-- `links` of `PaginationMeta`. -/
structure PaginationLinks where
  first : Option String
  prev : Option String
  next : Option String
  last : Option String
deriving DecidableEq

/-- `PaginationMeta`. -/
structure PaginationMeta where
  page : Int
  limit : Int
  total : Int
  totalPages : Int
  hasNext : Bool
  hasPrev : Bool
  links : Option PaginationLinks
deriving DecidableEq

/-- `SuccessResponse` (the constant `success: true` tag is implicit in the
type; `metadata` is optional because the `minimal` format drops it). -/
structure SuccessResponse where
  data : Json
  metadata : Option ResponseMetadata
  pagination : Option PaginationMeta

/-- The `error` object of `ErrorResponse`. `code` and `message` are `Json`
because the source assigns `any`-typed values (`error?.code`,
`error?.message`) into them; `details := Json.undefinedV` models an absent value. -/
structure ErrorBody where
  code : Json
  message : Json
  details : Json
  timestamp : String
  requestId : String
  stack : Option String
  helpUrl : Option String
  possibleCauses : Option (List String)

/-- `ErrorResponse` (constant `success: false` tag implicit). -/
structure ErrorResponse where
  error : ErrorBody
  metadata : ResponseMetadata

/-- The classified error input of `normalizeError`: a structured `Error`
instance, or an arbitrary runtime value (a `Json.str` is the
`typeof error === 'string'` case). -/
inductive JsError where
  | errObj (name : String) (message : String) (stack : Option String)
  | value (v : Json)

/-- `a || b` on an optional string, with JavaScript falsiness of `""`. -/
def jsStrOr (o : Option String) (d : String) : String :=
  match o with
  | some s => if s = "" then d else s
  | none => d

/-! ### The normalization engine (`normalization-engine.ts`) -/

/-- `createMetadata`: `processingTime` only when `startTime` is truthy, and
only attached when `includeMetadata` is set. -/
def createMetadata (env : RuntimeEnv) (config : NormalizationConfig)
    (context : RequestContext) : ResponseMetadata :=
  let processingTime : Option Int :=
    if context.startTime = 0 then none else some (env.nowMs - context.startTime)
  { timestamp := env.isoNow, requestId := context.requestId, version := "v1",
    processingTime := if config.includeMetadata then processingTime else none,
    server := none, nodeVersion := none }

/-- `Math.ceil(t / l)` on integer inputs: equals the ceiling of the rational
quotient whenever `0 < l` (the only regime in which the JavaScript float
division is integer-meaningful). -/
def ceilDivJs (t l : Int) : Int := -(Int.ediv (-t) l)

/-- `normalizePagination`: clamps `page`, `limit`, `total`, but computes
`totalPages`, `hasNext`, `hasPrev` from the raw input fields. -/
def normalizePagination (config : NormalizationConfig) (pagination : PaginationMeta) :
    PaginationMeta :=
  let normalized : PaginationMeta :=
    { page := max 1 pagination.page,
      limit := max 1 (min 100 pagination.limit),
      total := max 0 pagination.total,
      totalPages := max 1 (ceilDivJs pagination.total pagination.limit),
      hasNext := decide (pagination.page < ceilDivJs pagination.total pagination.limit),
      hasPrev := decide (1 < pagination.page),
      links := none }
  if jsOptTrue config.includeLinks && pagination.links.isSome then
    { normalized with links := pagination.links }
  else normalized

/-- The `detailed`-format metadata additions: `server` from
`process.env.NODE_ENV || 'development'`, `nodeVersion` from
`process.version`. -/
def detailedMeta (env : RuntimeEnv) (m : ResponseMetadata) : ResponseMetadata :=
  { m with server := some (jsStrOr env.nodeEnv "development"),
           nodeVersion := some env.nodeVersion }

/-- `applyFormatting`: `minimal` strips to `{success, data}`, `detailed`
augments the metadata, `standard` passes through. -/
def applyFormatting (env : RuntimeEnv) (config : NormalizationConfig)
    (response : SuccessResponse) : SuccessResponse :=
  match config.format with
  | .minimal => { data := response.data, metadata := none, pagination := none }
  | .detailed => { response with metadata := response.metadata.map (detailedMeta env) }
  | .standard => response

/-- `normalizeSuccess`. -/
def normalizeSuccess (env : RuntimeEnv) (config : NormalizationConfig) (data : Json)
    (context : RequestContext) (pagination : Option PaginationMeta) : SuccessResponse :=
  let response : SuccessResponse :=
    { data := data,
      metadata := some (createMetadata env config context),
      pagination := match pagination with
        | some p => some (normalizePagination config p)
        | none => none }
  applyFormatting env config response

/-- `isSensitiveField`: the lowercased key contains one of the sensitive
substrings. -/
def isSensitiveField (fieldName : String) : Bool :=
  ["password", "token", "secret", "key", "authorization", "auth", "credential",
   "ssn", "social", "credit", "card"].any
    (fun f => containsSub f.data (jsToLowerStr fieldName).data)

mutual

/-- `sanitizeErrorDetails`: falsy values collapse to `undefined`; strings
pass through; arrays and objects recurse, with values of sensitive keys
replaced by the redaction marker; remaining (truthy) primitives pass
through. -/
def sanitizeErrorDetails : Json → Json
  | .null => .undefinedV
  | .undefinedV => .undefinedV
  | .bool b => if b then .bool b else .undefinedV
  | .num n => if n = 0 then .undefinedV else .num n
  | .str s => if s = "" then .undefinedV else .str s
  | .arr xs => .arr (sanitizeDetailsArr xs)
  | .obj fs => .obj (sanitizeDetailsObj fs)

/-- `details.map(item => this.sanitizeErrorDetails(item))`. -/
def sanitizeDetailsArr : List Json → List Json
  | [] => []
  | x :: xs => sanitizeErrorDetails x :: sanitizeDetailsArr xs

/-- The `Object.entries` loop of `sanitizeErrorDetails`. -/
def sanitizeDetailsObj : List (String × Json) → List (String × Json)
  | [] => []
  | (k, v) :: fs =>
    (k, if isSensitiveField k then .str "[REDACTED]" else sanitizeErrorDetails v) ::
      sanitizeDetailsObj fs

end

/-- `generateHelpUrl` (only ever called with a string code). -/
def generateHelpUrl (errorCode : String) : String :=
  "https://docs.example.com/errors/" ++ jsToLowerStr errorCode

/-- `getPossibleCauses`: fixed table on the four known codes, default list
otherwise. A non-string code coerces to a property key matching none of
the table entries. -/
def getPossibleCauses (errorCode : Json) : List String :=
  match errorCode with
  | .str s =>
    match [("VALIDATION_ERROR",
             ["Invalid input format", "Missing required fields",
              "Field length constraints violated"]),
           ("AUTHENTICATION_ERROR",
             ["Invalid credentials", "Expired token", "Insufficient permissions"]),
           ("NOT_FOUND",
             ["Resource does not exist", "Incorrect resource ID",
              "Resource has been deleted"]),
           ("INTERNAL_ERROR",
             ["Server configuration issue", "Database connection problem",
              "Third-party service unavailable"])].lookup s with
    | some causes => causes
    | none => ["Unknown error cause"]
  | _ => ["Unknown error cause"]

/-- `applyErrorFormatting`. In the `detailed` branch the source calls
`errorCode.toLowerCase()`; when the code is not a string (possible because
`error?.code` is `any`-typed) that call raises a `TypeError`, modelled as
`Except.error`. -/
def applyErrorFormatting (env : RuntimeEnv) (config : NormalizationConfig)
    (response : ErrorResponse) : Except String ErrorResponse :=
  match config.errorFormat with
  | .minimal =>
    .ok { error := { code := response.error.code, message := response.error.message,
                     details := .undefinedV, timestamp := response.error.timestamp,
                     requestId := response.error.requestId, stack := none,
                     helpUrl := none, possibleCauses := none },
          metadata := response.metadata }
  | .detailed =>
    match response.error.code with
    | .str s =>
      .ok { response with
            error := { response.error with
                       helpUrl := some (generateHelpUrl s),
                       possibleCauses := some (getPossibleCauses response.error.code) },
            metadata := detailedMeta env response.metadata }
    | _ => .error "TypeError: errorCode.toLowerCase is not a function"
  | .standard => .ok response

/-- `normalizeError`: the error-shape classification, details redaction, and
error-format application. `code := none` models an omitted `code` argument
and `details := Json.undefinedV` an omitted `details` argument. -/
def normalizeError (env : RuntimeEnv) (config : NormalizationConfig) (error : JsError)
    (context : RequestContext) (code : Option String) (details : Json) :
    Except String ErrorResponse :=
  let metadata := createMetadata env config context
  let timestamp := env.isoNow
  let classified : Json × Json × Option String :=
    match error with
    | .errObj name message stack =>
      (.str message,
       .str (jsStrOr code (if name = "" then "INTERNAL_ERROR" else name)),
       if jsOptTrue config.includeDebugInfo then stack else none)
    | .value (.str s) => (.str s, .str (jsStrOr code "VALIDATION_ERROR"), none)
    | .value v =>
      let m := getField v "message"
      let fieldCode := getField v "code"
      ((if truthy m then m else .str "An unexpected error occurred"),
       (match code with
        | some s =>
          if s = "" then (if truthy fieldCode then fieldCode else .str "UNKNOWN_ERROR")
          else .str s
        | none => if truthy fieldCode then fieldCode else .str "UNKNOWN_ERROR"),
       none)
  let stackField : Option String :=
    match classified.2.2 with
    | some s => if s = "" then none else some s
    | none => none
  let response : ErrorResponse :=
    { error := { code := classified.2.1, message := classified.1,
                 details := sanitizeErrorDetails details, timestamp := timestamp,
                 requestId := context.requestId, stack := stackField,
                 helpUrl := none, possibleCauses := none },
      metadata := metadata }
  applyErrorFormatting env config response

/-- A baseline runtime environment for concrete runs. -/
def baseEnv : RuntimeEnv :=
  { nowMs := 1735689600000, isoNow := "2025-01-01T00:00:00.000Z",
    nodeEnv := some "test", nodeVersion := "v18.17.0" }

/-- A baseline normalization configuration (standard formats). -/
def baseNormCfg : NormalizationConfig :=
  { enabled := true, format := .standard, includeMetadata := true,
    errorFormat := .standard, includeDebugInfo := some false,
    compressResponses := some false, includeLinks := some false }

/-- A baseline request context. -/
def baseCtx : RequestContext :=
  { requestId := "test-request-123", timestamp := 1735689600000,
    startTime := 1735689600000, userAgent := some "test-agent", ip := some "127.0.0.1" }

example :
    normalizePagination baseNormCfg
      { page := 0, limit := 500, total := 23, totalPages := 0, hasNext := false,
        hasPrev := false, links := none } =
      { page := 1, limit := 100, total := 23, totalPages := 1, hasNext := true,
        hasPrev := false, links := none } := by
  decide

example :
    (normalizeError baseEnv { baseNormCfg with errorFormat := .detailed }
        (.value (.obj [("code", .num 5)])) baseCtx none .undefinedV).isOk = false := by
  rfl

example :
    (normalizeError baseEnv baseNormCfg (.errObj "Error" "boom" none) baseCtx (some "E")
        (.obj [("password", .str "x"),
               ("nested", .obj [("token", .str "y"), ("ok", .str "z")])])).map
      (fun r => r.error.details) =
    .ok (.obj [("password", .str "[REDACTED]"),
               ("nested", .obj [("token", .str "[REDACTED]"), ("ok", .str "z")])]) := by
  rfl

/-! ### Order theory of the sort used by `sanitize` -/

/-- `jsStrLe` as a relation. -/
def rle (a b : String) : Prop := jsStrLe a b = true

theorem char_toNat_inj {a b : Char} (h : a.toNat = b.toNat) : a = b :=
  Char.ext (UInt32.ext h)

theorem charsLe_total : ∀ a b : List Char, charsLe a b = true ∨ charsLe b a = true
  | [], _ => Or.inl rfl
  | _ :: _, [] => Or.inr rfl
  | x :: xs, y :: ys => by
    rcases Nat.lt_trichotomy x.toNat y.toNat with h | h | h
    · left; simp [charsLe, h]
    · have hxy : ¬ x.toNat < y.toNat := by omega
      have hyx : ¬ y.toNat < x.toNat := by omega
      simpa [charsLe, hxy, hyx] using charsLe_total xs ys
    · right; simp [charsLe, h]

theorem charsLe_trans : ∀ a b c : List Char,
    charsLe a b = true → charsLe b c = true → charsLe a c = true
  | [], _, _, _, _ => rfl
  | _ :: _, [], _, hab, _ => by simp [charsLe] at hab
  | _ :: _, _ :: _, [], _, hbc => by simp [charsLe] at hbc
  | x :: xs, y :: ys, z :: zs, hab, hbc => by
    by_cases hxz : x.toNat < z.toNat
    · simp [charsLe, hxz]
    · by_cases hzx : z.toNat < x.toNat
      · exfalso
        by_cases hxy : x.toNat < y.toNat
        · by_cases hyz : y.toNat < z.toNat
          · omega
          · by_cases hzy : z.toNat < y.toNat
            · simp [charsLe, hyz, hzy] at hbc
            · omega
        · by_cases hyx : y.toNat < x.toNat
          · simp [charsLe, hxy, hyx] at hab
          · by_cases hyz : y.toNat < z.toNat
            · omega
            · by_cases hzy : z.toNat < y.toNat
              · simp [charsLe, hyz, hzy] at hbc
              · omega
      · have hx : x.toNat = z.toNat := by omega
        by_cases hxy : x.toNat < y.toNat
        · by_cases hyz : y.toNat < z.toNat
          · omega
          · by_cases hzy : z.toNat < y.toNat
            · simp [charsLe, hyz, hzy] at hbc
            · omega
        · by_cases hyx : y.toNat < x.toNat
          · simp [charsLe, hxy, hyx] at hab
          · have h1 : charsLe xs ys = true := by simpa [charsLe, hxy, hyx] using hab
            have hyz : ¬ y.toNat < z.toNat := by omega
            have hzy : ¬ z.toNat < y.toNat := by omega
            have h2 : charsLe ys zs = true := by simpa [charsLe, hyz, hzy] using hbc
            simpa [charsLe, hxz, hzx] using charsLe_trans xs ys zs h1 h2

theorem charsLe_antisymm : ∀ a b : List Char,
    charsLe a b = true → charsLe b a = true → a = b
  | [], [], _, _ => rfl
  | _ :: _, [], hab, _ => by simp [charsLe] at hab
  | [], _ :: _, _, hba => by simp [charsLe] at hba
  | x :: xs, y :: ys, hab, hba => by
    by_cases hxy : x.toNat < y.toNat
    · simp [charsLe, hxy, Nat.lt_asymm hxy] at hba
    · by_cases hyx : y.toNat < x.toNat
      · simp [charsLe, hxy, hyx] at hab
      · have hx : x = y := char_toNat_inj (by omega)
        have h1 : charsLe xs ys = true := by simpa [charsLe, hxy, hyx] using hab
        have h2 : charsLe ys xs = true := by simpa [charsLe, hxy, hyx] using hba
        rw [hx, charsLe_antisymm xs ys h1 h2]

instance : IsTotal String rle :=
  ⟨fun a b => charsLe_total a.data b.data⟩

instance : IsTrans String rle :=
  ⟨fun a b c => charsLe_trans a.data b.data c.data⟩

instance : IsAntisymm String rle :=
  ⟨fun a b h1 h2 => by
    have h := charsLe_antisymm a.data b.data h1 h2
    cases a; cases b; exact congrArg String.mk h⟩

theorem insertSorted_perm (s : String) (l : List String) :
    List.Perm (insertSorted s l) (s :: l) := by
  induction l with
  | nil => simp [insertSorted]
  | cons t ts ih =>
    by_cases h : jsStrLe s t
    · simp [insertSorted, h]
    · simpa [insertSorted, h] using (ih.cons t).trans (List.Perm.swap s t ts)

theorem sortStrings_perm (l : List String) : List.Perm (sortStrings l) l := by
  induction l with
  | nil => simp [sortStrings]
  | cons s ss ih =>
    exact (insertSorted_perm s (sortStrings ss)).trans (ih.cons s)

theorem insertSorted_sorted (s : String) (l : List String)
    (hl : List.Sorted rle l) : List.Sorted rle (insertSorted s l) := by
  induction l with
  | nil => simp [insertSorted]
  | cons t ts ih =>
    rcases List.sorted_cons.mp hl with ⟨ht, hts⟩
    by_cases h : jsStrLe s t
    · rw [insertSorted, if_pos h]
      refine List.sorted_cons.mpr ⟨?_, hl⟩
      intro b hb
      rcases List.mem_cons.mp hb with rfl | hb
      · exact h
      · exact charsLe_trans _ _ _ h (ht b hb)
    · have hts' := ih hts
      rw [insertSorted, if_neg h]
      refine List.sorted_cons.mpr ⟨?_, hts'⟩
      intro b hb
      have hb' := (insertSorted_perm s ts).mem_iff.mp hb
      rcases List.mem_cons.mp hb' with rfl | hb'
      · rcases charsLe_total t.data b.data with h' | h'
        · exact h'
        · exact absurd h' h
      · exact ht b hb'

theorem sortStrings_sorted (l : List String) : List.Sorted rle (sortStrings l) := by
  induction l with
  | nil => simp [sortStrings]
  | cons s ss ih => exact insertSorted_sorted s (sortStrings ss) ih

theorem sortStrings_idem (l : List String) : sortStrings (sortStrings l) = sortStrings l :=
  List.eq_of_perm_of_sorted (sortStrings_perm (sortStrings l))
    (sortStrings_sorted _) (sortStrings_sorted _)

theorem sortStrings_filter (p : String → Bool) (l : List String) :
    (sortStrings l).filter p = sortStrings (l.filter p) := by
  refine List.eq_of_perm_of_sorted ?_ ?_ (sortStrings_sorted _)
  · exact ((sortStrings_perm l).filter p).trans (sortStrings_perm (l.filter p)).symm
  · exact List.Pairwise.filter p (sortStrings_sorted l)

/-! ### Properties of `jsTrim` -/

theorem dropWhile_head_false (p : Char → Bool) :
    ∀ l : List Char, ∀ c cs, l.dropWhile p = c :: cs → p c = false := by
  intro l
  induction l with
  | nil => intro c cs h; simp [List.dropWhile] at h
  | cons x xs ih =>
    intro c cs h
    by_cases hx : p x
    · rw [List.dropWhile_cons_of_pos hx] at h
      exact ih c cs h
    · rw [List.dropWhile_cons_of_neg hx] at h
      cases h
      simpa using hx

theorem dropWhile_eq_self_of_head (p : Char → Bool) (c : Char) (cs : List Char)
    (h : p c = false) : (c :: cs).dropWhile p = c :: cs :=
  List.dropWhile_cons_of_neg (by simp [h])

theorem dropTrailingWs_idem : ∀ l : List Char,
    dropTrailingWs (dropTrailingWs l) = dropTrailingWs l := by
  intro l
  induction l with
  | nil => rfl
  | cons c cs ih =>
    cases h : dropTrailingWs cs with
    | nil =>
      by_cases hc : jsWs c
      · simp [dropTrailingWs, h, hc]
      · simp [dropTrailingWs, h, hc]
    | cons y ys =>
      rw [h] at ih
      have hcc : dropTrailingWs (c :: cs) = c :: y :: ys := by
        rw [dropTrailingWs, h]
      rw [hcc, dropTrailingWs, ih]

theorem dropTrailingWs_head (c : Char) (cs : List Char) :
    dropTrailingWs (c :: cs) = [] ∨ ∃ t, dropTrailingWs (c :: cs) = c :: t := by
  cases h : dropTrailingWs cs with
  | nil =>
    by_cases hc : jsWs c
    · left; simp [dropTrailingWs, h, hc]
    · right; exact ⟨[], by simp [dropTrailingWs, h, hc]⟩
  | cons y ys => right; exact ⟨y :: ys, by simp [dropTrailingWs, h]⟩

theorem dropWhile_dropTrailingWs (l : List Char) :
    (dropTrailingWs (l.dropWhile jsWs)).dropWhile jsWs = dropTrailingWs (l.dropWhile jsWs) := by
  cases h : l.dropWhile jsWs with
  | nil => simp [dropTrailingWs]
  | cons c cs =>
    have hc : jsWs c = false := dropWhile_head_false _ l c cs h
    rcases dropTrailingWs_head c cs with h2 | ⟨t, h2⟩
    · simp [h2]
    · rw [h2]; exact dropWhile_eq_self_of_head _ c t hc

/-- JavaScript `trim` is idempotent. -/
theorem jsTrim_idem (s : String) : jsTrim (jsTrim s) = jsTrim s := by
  show (⟨dropTrailingWs ((dropTrailingWs (s.data.dropWhile jsWs)).dropWhile jsWs)⟩ : String) = _
  rw [dropWhile_dropTrailingWs, dropTrailingWs_idem]
  rfl

/-! ### Structural induction over `Json` -/

mutual

/-- Node count of a `Json` tree. -/
def jsize : Json → Nat
  | .null | .undefinedV | .bool _ | .num _ | .str _ => 1
  | .arr xs => jsizeList xs + 1
  | .obj fs => jsizeObj fs + 1

/-- Node count of an array's elements. -/
def jsizeList : List Json → Nat
  | [] => 0
  | x :: xs => jsize x + jsizeList xs + 1

/-- Node count of an object's fields. -/
def jsizeObj : List (String × Json) → Nat
  | [] => 0
  | (_, v) :: fs => jsize v + jsizeObj fs + 1

end

/-- Induction over `Json` with member-wise hypotheses for arrays/objects. -/
theorem json_ind (P : Json → Prop)
    (h0 : P .null) (h1 : P .undefinedV) (h2 : ∀ b, P (.bool b)) (h3 : ∀ n, P (.num n))
    (h4 : ∀ s, P (.str s))
    (h5 : ∀ xs, (∀ x ∈ xs, P x) → P (.arr xs))
    (h6 : ∀ fs, (∀ kv ∈ fs, P kv.2) → P (.obj fs)) : ∀ j, P j := by
  have key : ∀ n j, jsize j ≤ n → P j := by
    intro n
    induction n with
    | zero => intro j hj; cases j <;> simp [jsize] at hj
    | succ n ih =>
      intro j hj
      cases j with
      | null => exact h0
      | undefinedV => exact h1
      | bool b => exact h2 b
      | num m => exact h3 m
      | str s => exact h4 s
      | arr xs =>
        refine h5 xs ?_
        intro x hx
        refine ih x ?_
        have hle : jsize x ≤ jsizeList xs := by
          clear hj
          induction xs with
          | nil => simp at hx
          | cons y ys ihy =>
            rw [List.mem_cons] at hx
            rcases hx with rfl | hx
            · simp [jsizeList]; omega
            · have := ihy hx; simp [jsizeList]; omega
        simp [jsize] at hj; omega
      | obj fs =>
        refine h6 fs ?_
        intro kv hkv
        refine ih kv.2 ?_
        have hle : jsize kv.2 ≤ jsizeObj fs := by
          clear hj
          induction fs with
          | nil => simp at hkv
          | cons y ys ihy =>
            rw [List.mem_cons] at hkv
            rcases hkv with rfl | hkv
            · simp [jsizeObj]; omega
            · have := ihy hkv; obtain ⟨k, v⟩ := y; simp [jsizeObj]; omega
        simp [jsize] at hj; omega
  intro j; exact key (jsize j) j le_rfl

/-! ### Generic facts about the traversal -/

/-- Every violation record the engine pushes carries the type derived from
its rule name and the severity derived from that type. -/
def violWF (v : SecurityViolation) : Prop :=
  v.type = getSecurityViolationType v.rule ∧ v.severity = getViolationSeverity v.type

theorem sanitizeString_viol_wf (purify : String → String) (fieldPath : String) :
    ∀ (rules : List SanitizationRule) (s : String),
      ∀ v ∈ (sanitizeString purify fieldPath rules s).2.1, violWF v := by
  intro rules
  induction rules with
  | nil => intro s v hv; simp [sanitizeString] at hv
  | cons rule rest ih =>
    intro s v hv
    rw [sanitizeString] at hv
    simp only [List.mem_append] at hv
    rcases hv with hv | hv
    · cases hval : rule.validate with
      | none => rw [hval] at hv; simp at hv
      | some vd =>
        rw [hval] at hv
        by_cases hok : vd s
        · simp [hok] at hv
        · simp [hok] at hv
          subst hv
          exact ⟨rfl, rfl⟩
    · exact ih _ v hv

theorem sanitizeValue_viol_wf (purify : String → String)
    (rules : List SanitizationRule) :
    ∀ j fieldPath, ∀ v ∈ (sanitizeValue purify rules j fieldPath).2.1, violWF v := by
  intro j
  induction j using json_ind with
  | h0 => intro p v hv; simp [sanitizeValue] at hv
  | h1 => intro p v hv; simp [sanitizeValue] at hv
  | h2 b => intro p v hv; simp [sanitizeValue] at hv
  | h3 n => intro p v hv; simp [sanitizeValue] at hv
  | h4 s => intro p v hv; exact sanitizeString_viol_wf purify p _ s v (by simpa [sanitizeValue] using hv)
  | h5 xs hxs =>
    intro p v hv
    simp only [sanitizeValue] at hv
    have aux : ∀ (ys : List Json) (idx : Nat), (∀ x ∈ ys, ∀ q, ∀ w ∈ (sanitizeValue purify rules x q).2.1, violWF w) →
        ∀ w ∈ (sanitizeArr purify rules p idx ys).2.1, violWF w := by
      intro ys
      induction ys with
      | nil => intro idx _ w hw; simp [sanitizeArr] at hw
      | cons z zs ihz =>
        intro idx hmem w hw
        rw [sanitizeArr] at hw
        simp only [List.mem_append] at hw
        rcases hw with hw | hw
        · exact hmem z (by simp) _ w hw
        · exact ihz (idx + 1) (fun x hx => hmem x (by simp [hx])) w hw
    exact aux xs 0 (fun x hx q => hxs x hx q) v hv
  | h6 fs hfs =>
    intro p v hv
    simp only [sanitizeValue] at hv
    have aux : ∀ (gs : List (String × Json)), (∀ kv ∈ gs, ∀ q, ∀ w ∈ (sanitizeValue purify rules kv.2 q).2.1, violWF w) →
        ∀ w ∈ (sanitizeObj purify rules p gs).2.1, violWF w := by
      intro gs
      induction gs with
      | nil => intro _ w hw; simp [sanitizeObj] at hw
      | cons z zs ihz =>
        intro hmem w hw
        obtain ⟨k, zv⟩ := z
        rw [sanitizeObj] at hw
        simp only [List.mem_append] at hw
        rcases hw with hw | hw
        · exact hmem (k, zv) (by simp) _ w hw
        · exact ihz (fun x hx => hmem x (by simp [hx])) w hw
    exact aux fs (fun kv hkv q => hfs kv hkv q) v hv

/-- Unknown names contribute nothing to the compiled rule list. -/
theorem filterMap_lookup_known (e : SanitizationEngine) :
    ∀ l : List String,
      l.filterMap (lookupRule e) =
        (l.filter (fun n => (lookupRule e n).isSome)).filterMap (lookupRule e) := by
  intro l
  induction l with
  | nil => rfl
  | cons x xs ih =>
    cases h : lookupRule e x with
    | none => simp [List.filterMap_cons, List.filter_cons, h, ih]
    | some r => simpa [List.filterMap_cons, List.filter_cons, h] using ih

/-- Dropping unknown names before the call compiles to the same rule list. -/
theorem compileRules_filter_known (e : SanitizationEngine) (l : List String) :
    compileRules e (l.filter (fun n => (lookupRule e n).isSome)) = compileRules e l := by
  unfold compileRules
  rw [← sortStrings_filter, ← filterMap_lookup_known]

/-- `ceilDivJs t l` is the ceiling of `t / l` for positive `l`: the unique
integer `c` with `(c-1)*l < t ≤ c*l`. -/
theorem ceilDivJs_spec (t l : Int) (hl : 0 < l) :
    (ceilDivJs t l - 1) * l < t ∧ t ≤ ceilDivJs t l * l := by
  unfold ceilDivJs
  have hmod : l * (Int.ediv (-t) l) + Int.emod (-t) l = -t := Int.ediv_add_emod (-t) l
  have h0 : 0 ≤ Int.emod (-t) l := Int.emod_nonneg _ (ne_of_gt hl)
  have h1 : Int.emod (-t) l < l := Int.emod_lt_of_pos _ hl
  constructor <;> nlinarith [hmod, h0, h1]

/-! ### The trim rule through the traversal -/

/-- The built-in `trim` rule. -/
def trimRuleDef : SanitizationRule :=
  { name := "trim", transform := some jsTrim, validate := some (fun _ => true),
    description := "Removes leading and trailing whitespace" }

/-- The built-in `script` rule. -/
def scriptRuleDef : SanitizationRule :=
  { name := "script", transform := some scriptStrip, validate := some (fun v => !scriptTest v),
    description := "Removes script tags to prevent XSS" }

theorem sanitizeString_trim (purify : String → String) (p : String) (s : String) :
    sanitizeString purify p [trimRuleDef] s =
      (jsTrim s, [], if jsTrim s = s then [] else ["trim"]) := by
  rw [sanitizeString, sanitizeString]
  by_cases h : jsTrim s = s <;> simp [trimRuleDef, h]

/-- With the trim rule alone, a pass produces no violations, and a second
pass is the identity with nothing applied. -/
theorem sanitizeValue_trim_idem (purify : String → String) : ∀ j : Json,
    (∀ p, (sanitizeValue purify [trimRuleDef] j p).2.1 = []) ∧
    (∀ p q, sanitizeValue purify [trimRuleDef]
        (sanitizeValue purify [trimRuleDef] j p).1 q =
      ((sanitizeValue purify [trimRuleDef] j p).1, [], [])) := by
  intro j
  induction j using json_ind with
  | h0 => exact ⟨fun _ => rfl, fun _ _ => rfl⟩
  | h1 => exact ⟨fun _ => rfl, fun _ _ => rfl⟩
  | h2 b => exact ⟨fun _ => rfl, fun _ _ => rfl⟩
  | h3 n => exact ⟨fun _ => rfl, fun _ _ => rfl⟩
  | h4 s =>
    constructor
    · intro p
      simp [sanitizeValue, sanitizeString_trim]
    · intro p q
      simp only [sanitizeValue, sanitizeString_trim]
      simp [jsTrim_idem]
  | h5 xs hxs =>
    have aux : ∀ ys : List Json, (∀ x ∈ ys,
        (∀ p, (sanitizeValue purify [trimRuleDef] x p).2.1 = []) ∧
        (∀ p q, sanitizeValue purify [trimRuleDef]
            (sanitizeValue purify [trimRuleDef] x p).1 q =
          ((sanitizeValue purify [trimRuleDef] x p).1, [], []))) →
        ∀ p idx,
          (sanitizeArr purify [trimRuleDef] p idx ys).2.1 = [] ∧
          (∀ q idx', sanitizeArr purify [trimRuleDef] q idx'
              (sanitizeArr purify [trimRuleDef] p idx ys).1 =
            ((sanitizeArr purify [trimRuleDef] p idx ys).1, [], [])) := by
      intro ys
      induction ys with
      | nil => intro _ p idx; exact ⟨rfl, fun _ _ => rfl⟩
      | cons z zs ihz =>
        intro hmem p idx
        have hz := hmem z (by simp)
        have hzs := ihz (fun x hx => hmem x (by simp [hx])) p (idx + 1)
        constructor
        · rw [sanitizeArr]
          simp [hz.1, hzs.1]
        · intro q idx'
          rw [sanitizeArr]
          simp only []
          rw [sanitizeArr]
          rw [hz.2 _ _, hzs.2 q (idx' + 1)]
          simp
    constructor
    · intro p
      simp only [sanitizeValue]
      exact (aux xs hxs p 0).1
    · intro p q
      simp only [sanitizeValue]
      rw [(aux xs hxs p 0).2 q 0]
  | h6 fs hfs =>
    have aux : ∀ gs : List (String × Json), (∀ kv ∈ gs,
        (∀ p, (sanitizeValue purify [trimRuleDef] kv.2 p).2.1 = []) ∧
        (∀ p q, sanitizeValue purify [trimRuleDef]
            (sanitizeValue purify [trimRuleDef] kv.2 p).1 q =
          ((sanitizeValue purify [trimRuleDef] kv.2 p).1, [], []))) →
        ∀ p,
          (sanitizeObj purify [trimRuleDef] p gs).2.1 = [] ∧
          (∀ q, sanitizeObj purify [trimRuleDef] q
              (sanitizeObj purify [trimRuleDef] p gs).1 =
            ((sanitizeObj purify [trimRuleDef] p gs).1, [], [])) := by
      intro gs
      induction gs with
      | nil => intro _ p; exact ⟨rfl, fun _ => rfl⟩
      | cons z zs ihz =>
        intro hmem p
        obtain ⟨k, zv⟩ := z
        have hz := hmem (k, zv) (by simp)
        have hzs := ihz (fun x hx => hmem x (by simp [hx])) p
        constructor
        · rw [sanitizeObj]
          simp [hz.1, hzs.1]
        · intro q
          rw [sanitizeObj]
          simp only []
          rw [sanitizeObj]
          rw [hz.2 _ _, hzs.2 q]
          simp
    constructor
    · intro p
      simp only [sanitizeValue]
      exact (aux fs hfs p).1
    · intro p q
      simp only [sanitizeValue]
      rw [(aux fs hfs p).2 q]

/-! ### Additional fixtures for the claims -/

/-- The internal `violations` array of a `sanitize` call, before its
reduction to `"field: type"` strings. -/
def sanitizeRawViolations (e : SanitizationEngine) (data : Json) (rules : List String) :
    List SecurityViolation :=
  (sanitizeValue e.purify (compileRules e rules) data "").2.1

/-- Strict-and-reject configuration with `rules = ["script"]`. -/
def strictCfg : SanitizationConfig :=
  { enabled := true, rules := ["script"], customRules := [], strictMode := true,
    logViolations := false, rejectOnViolation := some true }

/-- Same as `strictCfg` but with `rejectOnViolation = false`. -/
def lenientCfg : SanitizationConfig :=
  { strictCfg with rejectOnViolation := some false }

/-- Normalization configuration with `format = "minimal"`. -/
def minimalNormCfg : NormalizationConfig := { baseNormCfg with format := .minimal }

/-- Normalization configuration with `format = "detailed"`. -/
def detailedNormCfg : NormalizationConfig := { baseNormCfg with format := .detailed }

theorem jsStrOr_ne_empty (o : Option String) (d : String) (hd : ¬ d = "") :
    ¬ jsStrOr o d = "" := by
  cases o with
  | none => exact hd
  | some s => by_cases h : s = "" <;> simp [jsStrOr, h, hd]

theorem sanitizeDetailsObj_map : ∀ fs : List (String × Json),
    sanitizeDetailsObj fs = fs.map (fun kv =>
      (kv.1, if isSensitiveField kv.1 then .str "[REDACTED]" else sanitizeErrorDetails kv.2)) := by
  intro fs
  induction fs with
  | nil => rfl
  | cons z zs ih => obtain ⟨k, v⟩ := z; rw [sanitizeDetailsObj, ih]; rfl

theorem sanitizeDetailsArr_map : ∀ xs : List Json,
    sanitizeDetailsArr xs = xs.map sanitizeErrorDetails := by
  intro xs
  induction xs with
  | nil => rfl
  | cons z zs ih => rw [sanitizeDetailsArr, ih]; rfl

/-! ### The claims -/

/-- Claim C1 (counterexample): with the input of the claim, the two rule
orderings produce the *same* `SanitizationResult`, and the alleged
violation-free ordering `["trim","email-normalize"]` does record the
email-shape violation — so the claimed difference does not exist. -/
theorem C1_counterexample :
    sanitize baseEngine (.str "  JOHN@EXAMPLE.COM  ") ["email-normalize", "trim"] =
      sanitize baseEngine (.str "  JOHN@EXAMPLE.COM  ") ["trim", "email-normalize"] ∧
    (sanitize baseEngine (.str "  JOHN@EXAMPLE.COM  ") ["trim", "email-normalize"]).map
        (fun r => r.violations) = .ok [": XSS"] :=
  ⟨rfl, rfl⟩

/-- Claim C1 (amended): `sanitize` sorts the rule-name list in place before
compiling, so the rules are applied in sorted-name order regardless of the
caller's order; in particular both orderings of the claim apply
`email-normalize` first on `"  JOHN@EXAMPLE.COM  "`, record the email-shape
violation, and return identical results. -/
theorem C1_rules_applied_in_sorted_order :
    (∀ (e : SanitizationEngine) (d : Json) (rules : List String),
      sanitize e d rules = sanitize e d (sortStrings rules)) ∧
    sanitize baseEngine (.str "  JOHN@EXAMPLE.COM  ") ["email-normalize", "trim"] =
      .ok { sanitized := .str "john@example.com", violations := [": XSS"],
            appliedRules := ["email-normalize"] } ∧
    sanitize baseEngine (.str "  JOHN@EXAMPLE.COM  ") ["trim", "email-normalize"] =
      .ok { sanitized := .str "john@example.com", violations := [": XSS"],
            appliedRules := ["email-normalize"] } := by
  refine ⟨?_, rfl, rfl⟩
  intro e d rules
  rw [sanitize, sanitize, compileRules, compileRules, sortStrings_idem]

/-- Claim C2 (counterexample): on `{page: 0, limit: 500, total: 23}` the code
returns `hasNext = true` (it compares the *raw* `page` with the raw-field
ceiling), not the `false` demanded by the claim. -/
theorem C2_counterexample :
    normalizePagination baseNormCfg
        { page := 0, limit := 500, total := 23, totalPages := 0, hasNext := false,
          hasPrev := false, links := none } =
      { page := 1, limit := 100, total := 23, totalPages := 1, hasNext := true,
        hasPrev := false, links := none } ∧
    (normalizePagination baseNormCfg
        { page := 0, limit := 500, total := 23, totalPages := 0, hasNext := false,
          hasPrev := false, links := none }).hasNext ≠ false :=
  ⟨by decide, by decide⟩

/-- Claim C2 (amended): for positive `limit`, the normalized output clamps
`page ≥ 1`, `1 ≤ limit ≤ 100`, `total ≥ 0`, but computes `totalPages`,
`hasNext` and `hasPrev` from the *raw* input fields:
`totalPages = max 1 ⌈total/limit⌉`, `hasNext = (page < ⌈total/limit⌉)`,
`hasPrev = (page > 1)` with `⌈total/limit⌉` characterized by its defining
inequalities. -/
theorem C2_pagination_normalization (config : NormalizationConfig) (p : PaginationMeta)
    (hl : 0 < p.limit) :
    (normalizePagination config p).page = max 1 p.page ∧
    1 ≤ (normalizePagination config p).page ∧
    (normalizePagination config p).limit = max 1 (min 100 p.limit) ∧
    1 ≤ (normalizePagination config p).limit ∧
    (normalizePagination config p).limit ≤ 100 ∧
    (normalizePagination config p).total = max 0 p.total ∧
    0 ≤ (normalizePagination config p).total ∧
    (normalizePagination config p).totalPages = max 1 (ceilDivJs p.total p.limit) ∧
    (ceilDivJs p.total p.limit - 1) * p.limit < p.total ∧
    p.total ≤ ceilDivJs p.total p.limit * p.limit ∧
    (normalizePagination config p).hasNext = decide (p.page < ceilDivJs p.total p.limit) ∧
    (normalizePagination config p).hasPrev = decide (1 < p.page) := by
  have hspec := ceilDivJs_spec p.total p.limit hl
  have hproj :
      (normalizePagination config p).page = max 1 p.page ∧
      (normalizePagination config p).limit = max 1 (min 100 p.limit) ∧
      (normalizePagination config p).total = max 0 p.total ∧
      (normalizePagination config p).totalPages = max 1 (ceilDivJs p.total p.limit) ∧
      (normalizePagination config p).hasNext = decide (p.page < ceilDivJs p.total p.limit) ∧
      (normalizePagination config p).hasPrev = decide (1 < p.page) := by
    unfold normalizePagination
    by_cases hIf : (jsOptTrue config.includeLinks && p.links.isSome) = true <;>
      simp [hIf]
  refine ⟨hproj.1, ?_, hproj.2.1, ?_, ?_, hproj.2.2.1, ?_, hproj.2.2.2.1, hspec.1, hspec.2,
    hproj.2.2.2.2.1, hproj.2.2.2.2.2⟩
  · rw [hproj.1]; exact le_max_left 1 p.page
  · rw [hproj.2.1]; exact le_max_left 1 _
  · rw [hproj.2.1]; omega
  · rw [hproj.2.2.1]; exact le_max_left 0 p.total

/-- Claim C2 (witness): the amended statement at `{page:3, limit:10, total:45}`. -/
theorem C2_witness :
    (0 : Int) < (10 : Int) ∧
    ((normalizePagination baseNormCfg
        { page := 3, limit := 10, total := 45, totalPages := 0, hasNext := false,
          hasPrev := false, links := none }).page = max 1 3 ∧
      1 ≤ (normalizePagination baseNormCfg
        { page := 3, limit := 10, total := 45, totalPages := 0, hasNext := false,
          hasPrev := false, links := none }).page ∧
      (normalizePagination baseNormCfg
        { page := 3, limit := 10, total := 45, totalPages := 0, hasNext := false,
          hasPrev := false, links := none }).limit = max 1 (min 100 10) ∧
      1 ≤ (normalizePagination baseNormCfg
        { page := 3, limit := 10, total := 45, totalPages := 0, hasNext := false,
          hasPrev := false, links := none }).limit ∧
      (normalizePagination baseNormCfg
        { page := 3, limit := 10, total := 45, totalPages := 0, hasNext := false,
          hasPrev := false, links := none }).limit ≤ 100 ∧
      (normalizePagination baseNormCfg
        { page := 3, limit := 10, total := 45, totalPages := 0, hasNext := false,
          hasPrev := false, links := none }).total = max 0 45 ∧
      0 ≤ (normalizePagination baseNormCfg
        { page := 3, limit := 10, total := 45, totalPages := 0, hasNext := false,
          hasPrev := false, links := none }).total ∧
      (normalizePagination baseNormCfg
        { page := 3, limit := 10, total := 45, totalPages := 0, hasNext := false,
          hasPrev := false, links := none }).totalPages = max 1 (ceilDivJs 45 10) ∧
      (ceilDivJs 45 10 - 1) * 10 < 45 ∧
      (45 : Int) ≤ ceilDivJs 45 10 * 10 ∧
      (normalizePagination baseNormCfg
        { page := 3, limit := 10, total := 45, totalPages := 0, hasNext := false,
          hasPrev := false, links := none }).hasNext = decide ((3 : Int) < ceilDivJs 45 10) ∧
      (normalizePagination baseNormCfg
        { page := 3, limit := 10, total := 45, totalPages := 0, hasNext := false,
          hasPrev := false, links := none }).hasPrev = decide ((1 : Int) < 3)) :=
  ⟨by decide,
   C2_pagination_normalization baseNormCfg
     { page := 3, limit := 10, total := 45, totalPages := 0, hasNext := false,
       hasPrev := false, links := none } (by decide)⟩

/-- Claim C3 (counterexample): the violation recorded for the unmapped rule
name `email-normalize` has type `XSS` but severity `high`, not `medium`
(the severity table maps `XSS` to `high`; the `|| 'medium'` default is
unreachable). -/
theorem C3_counterexample :
    (sanitizeRawViolations baseEngine (.str "x") ["email-normalize"]).map
        (fun v => (v.rule, v.type, v.severity)) =
      [("email-normalize", SecurityViolationType.XSS, Severity.high)] ∧
    Severity.high ≠ Severity.medium :=
  ⟨rfl, by decide⟩

/-- Claim C3 (amended): for every rule name outside the fixed lookup table, a
recorded violation has type `XSS` and severity `high` (the severity of
`XSS`), not `medium`. -/
theorem C3_unmapped_rule_defaults (name : String)
    (h : name ∉ ["html", "script", "xss", "sql", "path-traversal", "command-injection"]) :
    getSecurityViolationType name = .XSS ∧
    getViolationSeverity (getSecurityViolationType name) = .high ∧
    ∀ (e : SanitizationEngine) (data : Json) (rules : List String),
      ∀ v ∈ sanitizeRawViolations e data rules, v.rule = name →
        v.type = .XSS ∧ v.severity = .high := by
  simp only [List.mem_cons, not_or] at h
  have h1 : (name == "html") = false := beq_eq_false_iff_ne.mpr h.1
  have h2 : (name == "script") = false := beq_eq_false_iff_ne.mpr h.2.1
  have h3 : (name == "xss") = false := beq_eq_false_iff_ne.mpr h.2.2.1
  have h4 : (name == "sql") = false := beq_eq_false_iff_ne.mpr h.2.2.2.1
  have h5 : (name == "path-traversal") = false := beq_eq_false_iff_ne.mpr h.2.2.2.2.1
  have h6 : (name == "command-injection") = false := beq_eq_false_iff_ne.mpr h.2.2.2.2.2.1
  have htype : getSecurityViolationType name = .XSS := by
    simp [getSecurityViolationType, List.lookup, h1, h2, h3, h4, h5, h6]
  refine ⟨htype, by rw [htype]; decide, ?_⟩
  intro e data rules v hv hrule
  simp only [sanitizeRawViolations] at hv
  have hwf := sanitizeValue_viol_wf e.purify (compileRules e rules) data "" v hv
  have ht : v.type = .XSS := by rw [hwf.1, hrule, htype]
  exact ⟨ht, by rw [hwf.2, ht]; decide⟩

/-- Claim C3 (witness): the amended statement at the unmapped name
`email-normalize`. -/
theorem C3_witness :
    getSecurityViolationType "email-normalize" = .XSS ∧
    getViolationSeverity (getSecurityViolationType "email-normalize") = .high ∧
    ∀ (e : SanitizationEngine) (data : Json) (rules : List String),
      ∀ v ∈ sanitizeRawViolations e data rules, v.rule = "email-normalize" →
        v.type = .XSS ∧ v.severity = .high :=
  C3_unmapped_rule_defaults "email-normalize" (by decide)

/-- Claim C4 (counterexample): the input `"<script>"` contains the substring
`<script>`, yet the script pattern needs a closing `</script>`, so under
`strictMode = true, rejectOnViolation = true` the call does *not* raise and
returns an empty violations list. -/
theorem C4_counterexample :
    containsSub "<script>".data "<script>".data = true ∧
    sanitize (mkEngine strictCfg id) (.str "<script>") ["script"] =
      .ok { sanitized := .str "<script>", violations := [], appliedRules := [] } :=
  ⟨rfl, rfl⟩

/-- Claim C4 (amended): for every string the script pattern actually matches
(a complete `<script …>…</script>` element), strict+reject raises the
`SanitizationViolation` error listing the violation types, and with
`rejectOnViolation = false` the call returns the sanitized value with a
non-empty violations list. -/
theorem C4_script_strict_reject (purify : String → String) (s : String)
    (h : scriptTest s = true) :
    sanitize (mkEngine strictCfg purify) (.str s) ["script"] =
      .error "Sanitization violations detected: SCRIPT_INJECTION" ∧
    ∃ r, sanitize (mkEngine lenientCfg purify) (.str s) ["script"] = .ok r ∧
      r.violations = [": SCRIPT_INJECTION"] ∧ r.sanitized = .str (scriptStrip s) := by
  have hc1 : compileRules (mkEngine strictCfg purify) ["script"] = [scriptRuleDef] := rfl
  have hc2 : compileRules (mkEngine lenientCfg purify) ["script"] = [scriptRuleDef] := rfl
  have hgt : getSecurityViolationType "script" = .SCRIPT_INJECTION := by decide
  have hsev : getViolationSeverity .SCRIPT_INJECTION = .critical := by decide
  have hstr : ∀ p, sanitizeString purify p [scriptRuleDef] s =
      (scriptStrip s,
       [{ type := .SCRIPT_INJECTION, field := p, originalValue := s, sanitizedValue := s,
          rule := "script", severity := .critical }],
       if scriptStrip s = s then [] else ["script"]) := by
    intro p
    rw [sanitizeString, sanitizeString]
    by_cases hss : scriptStrip s = s <;>
      simp [scriptRuleDef, h, hss, hgt, hsev]
  have hlen : sanitize (mkEngine lenientCfg purify) (.str s) ["script"] =
      .ok { sanitized := .str (scriptStrip s),
            violations := [": SCRIPT_INJECTION"],
            appliedRules := if scriptStrip s = s then [] else ["script"] } := by
    rw [sanitize, hc2, sanitizeResultOf]
    simp only [mkEngine, sanitizeValue, hstr]
    simp [lenientCfg, strictCfg, jsOptTrue, violationTypeStr]
  refine ⟨?_, _, hlen, rfl, rfl⟩
  rw [sanitize, hc1, sanitizeResultOf]
  simp only [mkEngine, sanitizeValue, hstr]
  simp [strictCfg, jsOptTrue, violationTypeStr]
  decide

/-- Claim C4 (witness): the amended statement at a complete script element. -/
theorem C4_witness :
    sanitize (mkEngine strictCfg id) (.str "<script>alert(1)</script>") ["script"] =
      .error "Sanitization violations detected: SCRIPT_INJECTION" ∧
    ∃ r, sanitize (mkEngine lenientCfg id) (.str "<script>alert(1)</script>") ["script"] =
        .ok r ∧
      r.violations = [": SCRIPT_INJECTION"] ∧
      r.sanitized = .str (scriptStrip "<script>alert(1)</script>") :=
  C4_script_strict_reject id "<script>alert(1)</script>" rfl

/-- Claim C5: with `errorFormat = "detailed"`, an error value whose nested
`code` field is a truthy non-string (here the number `5`) makes
`normalizeError` call `toLowerCase` on a non-string and throw a
`TypeError` — contradicting "never throws". -/
theorem C5_normalizeError_throws_on_nonstring_code :
    normalizeError baseEnv { baseNormCfg with errorFormat := .detailed }
        (.value (.obj [("code", .num 5)])) baseCtx none .undefinedV =
      .error "TypeError: errorCode.toLowerCase is not a function" :=
  rfl

/-- Claim C6 (counterexample): a falsy non-container leaf does *not* pass
through unchanged — `{ok: 0}` becomes `{ok: undefined}`. -/
theorem C6_counterexample :
    sanitizeErrorDetails (.obj [("ok", .num 0)]) = .obj [("ok", .undefinedV)] ∧
    sanitizeErrorDetails (.obj [("ok", .num 0)]) ≠ .obj [("ok", .num 0)] := by
  refine ⟨rfl, ?_⟩
  rw [show sanitizeErrorDetails (.obj [("ok", .num 0)]) = .obj [("ok", .undefinedV)] from rfl]
  simp

/-- Claim C6 (amended): redaction replaces values of sensitive keys and
recurses through objects and arrays; *truthy* non-container values pass
through unchanged, but falsy values (`null`, `undefined`, `false`, `0`,
`""`) are collapsed to `undefined` by the leading `if (!details)` guard.
With the standard error format, `normalizeError` carries exactly the
redacted details, and the claim's concrete example holds. -/
theorem C6_details_redaction :
    (∀ fs, sanitizeErrorDetails (.obj fs) =
      .obj (fs.map (fun kv =>
        (kv.1, if isSensitiveField kv.1 then .str "[REDACTED]" else sanitizeErrorDetails kv.2)))) ∧
    (∀ xs, sanitizeErrorDetails (.arr xs) = .arr (xs.map sanitizeErrorDetails)) ∧
    (∀ s, sanitizeErrorDetails (.str s) = if s = "" then .undefinedV else .str s) ∧
    (∀ n, sanitizeErrorDetails (.num n) = if n = 0 then .undefinedV else .num n) ∧
    (∀ b, sanitizeErrorDetails (.bool b) = if b then .bool b else .undefinedV) ∧
    sanitizeErrorDetails .null = .undefinedV ∧
    sanitizeErrorDetails .undefinedV = .undefinedV ∧
    (∀ env err ctx code d,
      (normalizeError env baseNormCfg err ctx code d).map (fun r => r.error.details) =
        .ok (sanitizeErrorDetails d)) ∧
    sanitizeErrorDetails (.obj [("password", .str "x"),
        ("nested", .obj [("token", .str "y"), ("ok", .str "z")])]) =
      .obj [("password", .str "[REDACTED]"),
            ("nested", .obj [("token", .str "[REDACTED]"), ("ok", .str "z")])] := by
  refine ⟨?_, ?_, fun s => rfl, fun n => rfl, fun b => rfl, rfl, rfl, ?_, rfl⟩
  · intro fs; rw [sanitizeErrorDetails, sanitizeDetailsObj_map]
  · intro xs; rw [sanitizeErrorDetails, sanitizeDetailsArr_map]
  · intro env err ctx code d
    cases err with
    | errObj n m st => rfl
    | value v => cases v <;> rfl

/-- Claim C7: `sanitize` silently ignores unknown rule names (it behaves
exactly as if they were omitted), while `validateConfig` returns `true`
when all configured names are registered and otherwise throws the
`ConfigError` listing precisely the unregistered names. -/
theorem C7_unknown_rule_asymmetry (e : SanitizationEngine) (data : Json)
    (rules : List String) (config : SanitizationConfig) :
    sanitize e data rules =
      sanitize e data (rules.filter (fun n => (lookupRule e n).isSome)) ∧
    validateConfig e config =
      (if config.rules.all (fun n => (e.rulesCache.map (fun r => r.name)).contains n) then
        .ok true
      else
        .error ("Invalid sanitization rules: " ++ String.intercalate ", "
          (config.rules.filter (fun n => !(e.rulesCache.map (fun r => r.name)).contains n)))) := by
  constructor
  · rw [sanitize, sanitize, compileRules_filter_known]
  · by_cases hall : config.rules.all (fun n => (e.rulesCache.map (fun r => r.name)).contains n)
    · have hnil : config.rules.filter
          (fun n => !(e.rulesCache.map (fun r => r.name)).contains n) = [] := by
        rw [List.filter_eq_nil_iff]
        intro a ha
        have hc := List.all_eq_true.mp hall a ha
        rw [hc]
        exact fun hq => Bool.noConfusion hq
      simp only [validateConfig]
      rw [hnil, if_pos hall]
      rfl
    · have hne : config.rules.filter
          (fun n => !(e.rulesCache.map (fun r => r.name)).contains n) ≠ [] := by
        intro hnil
        apply hall
        rw [List.all_eq_true]
        intro a ha
        by_contra hc
        have hcf : (e.rulesCache.map (fun r => r.name)).contains a = false := by
          cases hb : (e.rulesCache.map (fun r => r.name)).contains a
          · rfl
          · exact absurd hb hc
        have hmem : a ∈ config.rules.filter
            (fun n => !(e.rulesCache.map (fun r => r.name)).contains n) :=
          List.mem_filter.mpr ⟨ha, by rw [hcf]; rfl⟩
        rw [hnil] at hmem
        simp at hmem
      have hne2 : (config.rules.filter
          (fun n => !(e.rulesCache.map (fun r => r.name)).contains n)).isEmpty = false := by
        cases hl : config.rules.filter
            (fun n => !(e.rulesCache.map (fun r => r.name)).contains n) with
        | nil => exact absurd hl hne
        | cons x xs => rfl
      simp only [validateConfig]
      rw [hne2, if_neg hall]
      rfl

/-- Claim C8 (counterexample): sanitization is not idempotent — with rules
`["xss"]` the input `"jjavascript:avascript:"` sanitizes to
`"javascript:"`, and sanitizing that output again strips it to `""` with a
fresh `appliedRules` entry. -/
theorem C8_counterexample :
    sanitize baseEngine (.str "jjavascript:avascript:") ["xss"] =
      .ok { sanitized := .str "javascript:", violations := [": XSS"],
            appliedRules := ["xss"] } ∧
    sanitize baseEngine (.str "javascript:") ["xss"] =
      .ok { sanitized := .str "", violations := [": XSS"], appliedRules := ["xss"] } ∧
    Json.str "" ≠ Json.str "javascript:" ∧ (["xss"] : List String) ≠ [] := by
  refine ⟨rfl, rfl, ?_, ?_⟩ <;> simp

/-- Claim C8 (amended): with the rule list `["trim"]` (the spec's own
example), sanitization is idempotent: re-sanitizing the sanitized output
returns it unchanged with no violations and an empty `appliedRules`. -/
theorem C8_trim_idempotent (e : SanitizationEngine) (v : Json) (r1 : SanitizationResult)
    (hrule : lookupRule e "trim" = some trimRuleDef)
    (h1 : sanitize e v ["trim"] = .ok r1) :
    sanitize e r1.sanitized ["trim"] =
      .ok { sanitized := r1.sanitized, violations := [], appliedRules := [] } := by
  have hcomp : compileRules e ["trim"] = [trimRuleDef] := by
    simp [compileRules, sortStrings, insertSorted, List.filterMap, hrule]
  have hmain := sanitizeValue_trim_idem e.purify v
  simp only [sanitize, hcomp, sanitizeResultOf] at h1 ⊢
  rw [hmain.1 ""] at h1
  simp at h1
  rw [← h1]
  rw [hmain.2 "" ""]
  simp

/-- Claim C8 (witness): the amended statement on the run
`sanitize baseEngine "  a  " ["trim"]`, whose result is `"a"`. -/
theorem C8_witness :
    sanitize baseEngine (Json.str "a") ["trim"] =
      .ok { sanitized := .str "a", violations := [], appliedRules := [] } :=
  C8_trim_idempotent baseEngine (.str "  a  ")
    { sanitized := .str "a", violations := [], appliedRules := ["trim"] } rfl rfl

/-- Claim C9: under `format = "minimal"` the success envelope is exactly
`{success, data}` with no metadata and no pagination even when pagination
was supplied; under `format = "detailed"` the metadata carries the
non-empty `server` string and `process.version` (non-empty whenever the
runtime's version string is). -/
theorem C9_format_fidelity (env : RuntimeEnv) (config : NormalizationConfig) (data : Json)
    (ctx : RequestContext) (pagination : Option PaginationMeta) :
    (config.format = .minimal →
      normalizeSuccess env config data ctx pagination =
        { data := data, metadata := none, pagination := none }) ∧
    (config.format = .detailed → ¬ env.nodeVersion = "" →
      ∃ m, (normalizeSuccess env config data ctx pagination).metadata = some m ∧
        m.server = some (jsStrOr env.nodeEnv "development") ∧
        ¬ jsStrOr env.nodeEnv "development" = "" ∧
        m.nodeVersion = some env.nodeVersion ∧ ¬ env.nodeVersion = "") := by
  constructor
  · intro h
    simp [normalizeSuccess, applyFormatting, h]
  · intro h hnv
    refine ⟨detailedMeta env (createMetadata env config ctx), ?_, rfl,
      jsStrOr_ne_empty _ _ (by decide), rfl, hnv⟩
    simp [normalizeSuccess, applyFormatting, h, detailedMeta]

/-- Claim C9 (witness): both formats at concrete inputs. -/
theorem C9_witness :
    normalizeSuccess baseEnv minimalNormCfg (.num 1) baseCtx none =
      { data := .num 1, metadata := none, pagination := none } ∧
    (∃ m, (normalizeSuccess baseEnv detailedNormCfg (.num 1) baseCtx none).metadata = some m ∧
      m.server = some (jsStrOr baseEnv.nodeEnv "development") ∧
      ¬ jsStrOr baseEnv.nodeEnv "development" = "" ∧
      m.nodeVersion = some baseEnv.nodeVersion ∧ ¬ baseEnv.nodeVersion = "") :=
  ⟨(C9_format_fidelity baseEnv minimalNormCfg (.num 1) baseCtx none).1 rfl,
   (C9_format_fidelity baseEnv detailedNormCfg (.num 1) baseCtx none).2 rfl (by decide)⟩

/-- Claim C10: a `sanitize` call leaves the caller's rule-name array sorted
(`rules.sort()` mutates it in place while building the cache key): the
post-call array is the `jsStrLe`-sorted permutation of the original, and
the compiled rule set is built by looking the *sorted* array up in the
rule map. -/
theorem C10_sanitize_sorts_rules_in_place (e : SanitizationEngine) (data : Json)
    (rules : List String) :
    (sanitizeCall e data rules).2 = sortStrings rules ∧
    List.Sorted rle (sanitizeCall e data rules).2 ∧
    List.Perm (sanitizeCall e data rules).2 rules ∧
    (sanitizeCall e data rules).1 =
      sanitizeResultOf e data ((sanitizeCall e data rules).2.filterMap (lookupRule e)) :=
  ⟨rfl, sortStrings_sorted rules, sortStrings_perm rules, rfl⟩
